import Mathlib

/-!
Verification development for the reqline parser endpoint
(`src/endpoints/reqline/index.js`).

The JavaScript source is shallowly embedded: JS strings become `List Char`,
JS exceptions become `Except String`, and JSON values become the inductive
type `JVal`.  Platform builtins used by the source (`String.prototype.substring`,
`indexOf`, `toUpperCase`, `JSON.parse`, `Object.keys`, `encodeURIComponent`,
JS string coercion and truthiness) are modelled explicitly below; the JSON
model covers the subset exercised here (no string escapes, integer numerals).
-/

/-! ## JS string primitives -/

/-- Model of `String.prototype.substring(a, b)`: JavaScript swaps the two
indices when `a > b` and clamps them to the string length. -/
def jsSubstring (s : List Char) (a b : Nat) : List Char :=
  (s.take (max a b)).drop (min a b)

/-- Model of `String.prototype.indexOf(ch)` for a single character:
`none` plays the role of JavaScript's `-1`. -/
def jsIndexOfChar : List Char → Char → Option Nat
  | [], _ => none
  | c :: r, t => if c = t then some 0 else (jsIndexOfChar r t).map (· + 1)

/-- Model of `String.prototype.indexOf(sub)` for a substring:
`none` plays the role of JavaScript's `-1`. -/
def jsIndexOfSub : List Char → List Char → Option Nat
  | [], sub => if sub = [] then some 0 else none
  | c :: t, sub =>
    if sub = (c :: t).take sub.length then some 0
    else (jsIndexOfSub t sub).map (· + 1)

/-- Model of `String.prototype.toUpperCase` (ASCII range, which is all the
source compares against). -/
def jsToUpperCase (l : List Char) : List Char :=
  l.map Char.toUpper

/-- Model of `Array.prototype.join(sep)`. -/
def jsJoin (sep : List Char) : List (List Char) → List Char
  | [] => []
  | [p] => p
  | p :: q :: rest => p ++ sep ++ jsJoin sep (q :: rest)

/-! ## JSON values and the `JSON.parse` model -/

/-- JSON values as produced by `JSON.parse` (numbers restricted to integers;
this development never relies on fractional numerals). -/
inductive JVal where
  | null : JVal
  | bool : Bool → JVal
  | num : Int → JVal
  | str : List Char → JVal
  | arr : List JVal → JVal
  | obj : List (List Char × JVal) → JVal
deriving Repr

/-- Whether a JSON value is an object (a string-keyed mapping). -/
def JVal.isObj : JVal → Bool
  | .obj _ => true
  | _ => false

/-- JS truthiness of a JSON value. -/
def jsFalsy : JVal → Bool
  | .null => true
  | .bool false => true
  | .num 0 => true
  | .str [] => true
  | _ => false

/-- Property insertion with JS object semantics: a repeated key keeps its
original position but takes the latest value. -/
def insertProp (fs : List (List Char × JVal)) (k : List Char) (v : JVal) :
    List (List Char × JVal) :=
  if fs.any (fun kv => kv.1 = k) then
    fs.map (fun kv => if kv.1 = k then (k, v) else kv)
  else fs ++ [(k, v)]

/-- First-match association lookup (JS property read on an object literal
with unique keys). -/
def jsLookup : List (List Char × JVal) → List Char → JVal
  | [], _ => .null
  | (k, v) :: t, key => if k = key then v else jsLookup t key

/-- Decimal decoding of an index-like key (used for JS string/array
indexing via `Object.keys`). -/
def decodeDigits (l : List Char) : Option Nat :=
  if l ≠ [] ∧ l.all Char.isDigit then
    some (l.foldl (fun a c => a * 10 + (c.toNat - 48)) 0)
  else none

/-- Numeric value of a digit string (for the array-index key ordering of
`Object.keys`). -/
def arrayIndexVal (k : List Char) : Nat :=
  k.foldl (fun a c => a * 10 + (c.toNat - 48)) 0

/-- Whether a property key is a JS array index: the canonical decimal
form (no leading zero except `0` itself) of an integer below `2^32 - 1`. -/
def isArrayIndexKey (k : List Char) : Bool :=
  match k with
  | [] => false
  | ['0'] => true
  | c :: rest =>
    (c != '0') && (c :: rest).all Char.isDigit &&
      decide (arrayIndexVal (c :: rest) < 4294967295)

/-- Insertion into a numerically ascending list of array-index keys. -/
def insertAscKey (k : List Char) : List (List Char) → List (List Char)
  | [] => [k]
  | k2 :: t =>
    if arrayIndexVal k ≤ arrayIndexVal k2 then k :: k2 :: t
    else k2 :: insertAscKey k t

/-- Numerically ascending insertion sort of array-index keys. -/
def sortAscKeys : List (List Char) → List (List Char)
  | [] => []
  | k :: t => insertAscKey k (sortAscKeys t)

/-- Model of `Object.keys(x || {})` as used by the source: own enumerable
keys of an object in JS enumeration order — array-index keys first in
ascending numeric order, then the remaining keys in insertion order —
index keys of a string or array, nothing for primitives (and `|| {}`
absorbs the falsy cases). -/
def jsOwnKeys : JVal → List (List Char)
  | .obj fs =>
    sortAscKeys ((fs.map (fun kv => kv.1)).filter isArrayIndexKey) ++
      (fs.map (fun kv => kv.1)).filter (fun k => !isArrayIndexKey k)
  | .str s => (List.range s.length).map (fun n => (Nat.repr n).data)
  | .arr xs => (List.range xs.length).map (fun n => (Nat.repr n).data)
  | _ => []

/-- Model of the JS property read `x[key]` for the keys produced by
`jsOwnKeys`. -/
def jsGetProp : JVal → List Char → JVal
  | .obj fs, k => jsLookup fs k
  | .str s, k =>
    (match decodeDigits k with
     | some n => match s.get? n with
                 | some c => .str [c]
                 | none => .null
     | none => .null)
  | .arr xs, k =>
    (match decodeDigits k with
     | some n => (xs.get? n).getD .null
     | none => .null)
  | _, _ => .null

mutual

/-- Model of JS string coercion `String(v)` (arrays stringify as their
comma-joined elements, objects as the literal `[object Object]`). -/
def jsToString : JVal → List Char
  | .null => "null".data
  | .bool true => "true".data
  | .bool false => "false".data
  | .num n => (toString n).data
  | .str s => s
  | .arr xs => jsJoin [','] (jsToStringList xs)
  | .obj _ => "[object Object]".data

/-- Pointwise string coercion of a list of JSON values. -/
def jsToStringList : List JVal → List (List Char)
  | [] => []
  | v :: vs => jsToString v :: jsToStringList vs

end

/-- Whitespace skipping for the `JSON.parse` model. -/
def skipWs : List Char → List Char
  | c :: r => if c = ' ' ∨ c = '\t' ∨ c = '\n' ∨ c = '\r' then skipWs r else c :: r
  | [] => []

/-- JSON string-body scanning (escape sequences are outside this model). -/
def parseStrBody : List Char → Option (List Char × List Char)
  | [] => none
  | '"' :: r => some ([], r)
  | '\\' :: _ => none
  | c :: r => (parseStrBody r).map (fun p => (c :: p.1, p.2))

/-- JSON integer numeral scanning (fractional and exponent forms are
outside this model). -/
def jnumber (s : List Char) : Option (JVal × List Char) :=
  let neg := s.head? = some '-'
  let s1 := if neg then s.tail else s
  let ds := s1.takeWhile Char.isDigit
  let rest := s1.dropWhile Char.isDigit
  if ds = [] then none
  else
    match rest with
    | '.' :: _ => none
    | 'e' :: _ => none
    | 'E' :: _ => none
    | _ =>
      let n : Int := ds.foldl (fun a c => a * 10 + (c.toNat - 48)) 0
      some (.num (if neg then -n else n), rest)

/-- Mode of the fueled JSON scanner: a value, the items of an array, or the
members of an object. -/
inductive JMode where
  | value : JMode
  | arrItems : List JVal → JMode
  | objItems : List (List Char × JVal) → JMode

/-- Fueled recursive-descent scanner modelling `JSON.parse`. -/
def jstep : Nat → JMode → List Char → Option (JVal × List Char)
  | 0, _, _ => none
  | fuel + 1, .value, s =>
    (match skipWs s with
     | 'n' :: 'u' :: 'l' :: 'l' :: r => some (.null, r)
     | 't' :: 'r' :: 'u' :: 'e' :: r => some (.bool true, r)
     | 'f' :: 'a' :: 'l' :: 's' :: 'e' :: r => some (.bool false, r)
     | '"' :: r => (parseStrBody r).map (fun p => (JVal.str p.1, p.2))
     | '[' :: r =>
       (match skipWs r with
        | ']' :: r2 => some (.arr [], r2)
        | _ => jstep fuel (.arrItems []) r)
     | '{' :: r =>
       (match skipWs r with
        | '}' :: r2 => some (.obj [], r2)
        | _ => jstep fuel (.objItems []) r)
     | c :: r => if c = '-' ∨ c.isDigit then jnumber (c :: r) else none
     | [] => none)
  | fuel + 1, .arrItems acc, s =>
    (match jstep fuel .value s with
     | none => none
     | some (v, r) =>
       match skipWs r with
       | ',' :: r2 => jstep fuel (.arrItems (acc ++ [v])) r2
       | ']' :: r2 => some (.arr (acc ++ [v]), r2)
       | _ => none)
  | fuel + 1, .objItems acc, s =>
    (match skipWs s with
     | '"' :: r =>
       (match parseStrBody r with
        | none => none
        | some (k, r2) =>
          match skipWs r2 with
          | ':' :: r3 =>
            (match jstep fuel .value r3 with
             | none => none
             | some (v, r4) =>
               match skipWs r4 with
               | ',' :: r5 => jstep fuel (.objItems (insertProp acc k v)) r5
               | '}' :: r5 => some (.obj (insertProp acc k v), r5)
               | _ => none)
          | _ => none)
     | _ => none)

/-- Model of `JSON.parse`: scan one value and require only whitespace to
remain.  `none` plays the role of a thrown `SyntaxError`. -/
def jsonParse (s : List Char) : Option JVal :=
  match jstep (2 * s.length + 4) .value s with
  | some (v, rest) => if skipWs rest = [] then some v else none
  | none => none

/-! ## The segmenter: `splitByPipes` -/

/-- The message thrown for every pipe-spacing violation. -/
def pipeMsg : String := "Invalid spacing around pipe delimiter"

/-- The scanning loop of `splitByPipes` (source lines 21–49).  `p1` and
`p2` are the characters at `statement[i-1]` and `statement[i-2]` (`none`
when the index is negative), `rest` is the suffix of `s` starting at `i`,
and `ts` is `tokenStartIndex`.  On `'|'` the loop requires a single space
immediately before and after the pipe
and a non-space two positions before and after, then extracts
`statement.substring(tokenStartIndex, i - 1)`. -/
def splitLoop (s : List Char) :
    Option Char → Option Char → List Char → Nat → Nat → List (List Char) →
    Except String (List (List Char))
  | _, _, [], _, ts, segs =>
    let last := s.drop ts
    if last.length = 0 then .error pipeMsg else .ok (segs ++ [last])
  | p2, p1, c :: rest, i, ts, segs =>
    if c = '|' then
      if p1 ≠ some ' ' then .error pipeMsg
      else if rest.head? ≠ some ' ' then .error pipeMsg
      else if p2 = some ' ' then .error pipeMsg
      else if rest.get? 1 = some ' ' then .error pipeMsg
      else
        let seg := jsSubstring s ts (i - 1)
        if seg.length = 0 then .error pipeMsg
        else splitLoop s p1 (some c) rest (i + 1) (i + 2) (segs ++ [seg])
    else splitLoop s p1 (some c) rest (i + 1) ts segs

/-- Model of `splitByPipes` (source lines 8–58): the empty statement and
boundary-space checks, then the pipe scan.  The `typeof` guard of line 9
is enforced here by the type of the argument. -/
def splitByPipes (statement : List Char) : Except String (List (List Char)) :=
  if statement.length = 0 then .error "Missing required HTTP keyword"
  else if statement.head? = some ' ' ∨ statement.getLast? = some ' ' then
    .error "Multiple spaces found where single space expected"
  else splitLoop statement none none statement 0 0 []

/-! ## Keyword extraction and section decoding -/

/-- Model of `ensureSingleSpaceAfterKeyword` (source lines 60–76). -/
def ensureSingleSpaceAfterKeyword (segment keyword : List Char) :
    Except String Bool :=
  if jsIndexOfSub segment keyword ≠ some 0 then .ok false
  else
    let expected := keyword ++ [' ']
    if segment.take expected.length ≠ expected then .ok false
    else if segment.length = expected.length then
      .error "Missing space after keyword"
    else if segment.get? expected.length = some ' ' then
      .error "Multiple spaces found where single space expected"
    else .ok true

/-- Model of `parseJSONStrict` (source lines 78–87).  The final branch
models the re-thrown `SyntaxError` (never reached by the callers in the
source, which pass one of the three known section names). -/
def parseJSONStrict (jsonString : List Char) (sectionName : String) :
    Except String JVal :=
  match jsonParse jsonString with
  | some v => .ok v
  | none =>
    if sectionName = "HEADERS" then .error "Invalid JSON format in HEADERS section"
    else if sectionName = "QUERY" then .error "Invalid JSON format in QUERY section"
    else if sectionName = "BODY" then .error "Invalid JSON format in BODY section"
    else .error "Unexpected token in JSON"

/-! ## URL building -/

/-- Characters left unescaped by `encodeURIComponent`. -/
def isUnreservedChar (c : Char) : Bool :=
  c.isAlphanum || c ∈ ['-', '_', '.', '!', '~', '*', '\'', '(', ')']

/-- One hex digit, uppercase as produced by `encodeURIComponent`. -/
def toHexDigit (n : Nat) : Char :=
  if n < 10 then Char.ofNat (48 + n) else Char.ofNat (55 + n)

/-- UTF-8 bytes of a character (for the percent-encoding model). -/
def utf8Bytes (c : Char) : List Nat :=
  let n := c.toNat
  if n < 0x80 then [n]
  else if n < 0x800 then [0xC0 + n / 0x40, 0x80 + n % 0x40]
  else if n < 0x10000 then
    [0xE0 + n / 0x1000, 0x80 + (n / 0x40) % 0x40, 0x80 + n % 0x40]
  else
    [0xF0 + n / 0x40000, 0x80 + (n / 0x1000) % 0x40,
     0x80 + (n / 0x40) % 0x40, 0x80 + n % 0x40]

/-- Percent-escape of one byte. -/
def percentByte (b : Nat) : List Char :=
  ['%', toHexDigit (b / 16), toHexDigit (b % 16)]

/-- Model of `encodeURIComponent`. -/
def encodeURIComponent (l : List Char) : List Char :=
  (l.map (fun c =>
    if isUnreservedChar c then [c]
    else ((utf8Bytes c).map percentByte).flatten)).flatten

/-- Model of `buildQueryString` (source lines 89–101): iterate
`Object.keys(queryObject || {})`, percent-encode `String(key)` and
`String(value)`, and join with `&`.  `String(key)` is the identity here
because keys are already strings. -/
def buildQueryString (queryObject : JVal) : List Char :=
  let keys := jsOwnKeys queryObject
  if keys.length = 0 then []
  else
    jsJoin ['&'] (keys.map (fun key =>
      encodeURIComponent key ++ ['='] ++
        encodeURIComponent (jsToString (jsGetProp queryObject key))))

/-- Model of `constructFullURL` (source lines 103–108); `!queryString`
is JS falsiness of the empty string. -/
def constructFullURL (baseURL : List Char) (queryObject : JVal) : List Char :=
  let queryString := buildQueryString queryObject
  if queryString = [] then baseURL
  else baseURL ++ (if baseURL.contains '?' then ['&'] else ['?']) ++ queryString

/-! ## The request assembler: `parseReqline` -/

/-- The keyword whitelist of source line 121. -/
def allowedKeywords : List (List Char) :=
  ["HTTP".data, "URL".data, "HEADERS".data, "QUERY".data, "BODY".data]

/-- Mutable state of the segment loop of `parseReqline`
(source lines 122–128). -/
structure PState where
  seen : List (List Char)
  httpMethod : List Char
  baseURL : List Char
  headers : JVal
  query : JVal
  body : JVal

/-- Initial loop state (source lines 122–128). -/
def initState : PState :=
  { seen := [], httpMethod := [], baseURL := [],
    headers := .obj [], query := .obj [], body := .obj [] }

/-- One iteration of the segment loop of `parseReqline`
(source lines 130–171), in source order: locate the first space, isolate
keyword and value, uppercase and whitelist checks, duplicate-section
check, `ensureSingleSpaceAfterKeyword`, then the per-keyword action. -/
def processSegment (st : PState) (segment : List Char) : Except String PState :=
  match jsIndexOfChar segment ' ' with
  | none => .error "Missing space after keyword"
  | some i =>
    let keyword := segment.take i
    let value := segment.drop (i + 1)
    if keyword ≠ jsToUpperCase keyword then .error "Keywords must be uppercase"
    else if keyword ∉ allowedKeywords then .error "Keywords must be uppercase"
    else if keyword ∈ st.seen then
      .error ("Duplicate section " ++ String.mk keyword)
    else
      let st1 := { st with seen := keyword :: st.seen }
      match ensureSingleSpaceAfterKeyword segment keyword with
      | .error e => .error e
      | .ok _ =>
        if keyword = "HTTP".data then
          if value ≠ jsToUpperCase value then .error "HTTP method must be uppercase"
          else if value ≠ "GET".data ∧ value ≠ "POST".data then
            .error "Invalid HTTP method. Only GET and POST are supported"
          else .ok { st1 with httpMethod := value }
        else if keyword = "URL".data then .ok { st1 with baseURL := value }
        else if keyword = "HEADERS".data then
          (parseJSONStrict value "HEADERS").map (fun j => { st1 with headers := j })
        else if keyword = "QUERY".data then
          (parseJSONStrict value "QUERY").map (fun j => { st1 with query := j })
        else if keyword = "BODY".data then
          (parseJSONStrict value "BODY").map (fun j => { st1 with body := j })
        else .ok st1

/-- The segment loop of `parseReqline` (source lines 130–171). -/
def runSegments : PState → List (List Char) → Except String PState
  | st, [] => .ok st
  | st, seg :: rest =>
    match processSegment st seg with
    | .error e => .error e
    | .ok st' => runSegments st' rest

/-- The request descriptor returned by `parseReqline`
(source lines 175–182). -/
structure ReqDescriptor where
  method : List Char
  url : List Char
  headers : JVal
  query : JVal
  body : JVal
  full_url : List Char

/-- Model of `parseReqline` (source lines 110–183): segment, require the
HTTP section first and the URL section second, run the segment loop, then
build the full URL. -/
def parseReqline (statement : List Char) : Except String ReqDescriptor :=
  match splitByPipes statement with
  | .error e => .error e
  | .ok segments =>
    if (segments.getD 0 []).take 4 ≠ "HTTP".data then
      .error "Missing required HTTP keyword"
    else if (segments.getD 1 []).take 3 ≠ "URL".data then
      .error "Missing required URL keyword"
    else
      match runSegments initState segments with
      | .error e => .error e
      | .ok st =>
        .ok { method := st.httpMethod, url := st.baseURL,
              headers := st.headers, query := st.query, body := st.body,
              full_url := constructFullURL st.baseURL st.query }

/-! ## The HTTP endpoint handler (source lines 185–253)

The external HTTP client is a collaborator: the single awaited call is
modelled by an `HttpOutcome` parameter describing how that call resolves,
and the two `Date.now()` readings are the parameters `t1` and `t2`. -/

/-- Resolution of the one downstream HTTP request: either a response, or a
thrown error carrying an optional `e.context.response` with optional
`statusCode`/`data` fields and a message (source lines 215–220). -/
inductive HttpOutcome where
  | success : Int → JVal → HttpOutcome
  | failure : Option Int → Option JVal → String → HttpOutcome

/-- A `{status, data}` result returned to the handler framework. -/
structure HandlerResult where
  status : Nat
  data : JVal

/-- The `{ error: true, message }` body shape of every 400 response. -/
def errObj (msg : String) : JVal :=
  .obj [("error".data, .bool true), ("message".data, .str msg.data)]

/-- Model of `rc.body && rc.body.reqline` followed by the
`typeof reqline !== 'string'` guard (source lines 190–191): `some s`
exactly when the guard passes, with `s` the reqline string. -/
def getReqline (body : Option JVal) : Option (List Char) :=
  match body with
  | none => none
  | some b =>
    if jsFalsy b then none
    else
      match b with
      | .obj fs =>
        (match fs.find? (fun kv => kv.1 = "reqline".data) with
         | some (_, JVal.str s) => some s
         | _ => none)
      | _ => none

/-- Model of `ctx.data || { error: true, message: e.message }`
(source line 219): JS `||` falls through on a falsy left operand. -/
def jsOrData (o : Option JVal) (fallback : JVal) : JVal :=
  match o with
  | none => fallback
  | some v => if jsFalsy v then fallback else v

/-- Model of the handler (source lines 188–252). -/
def handler (outcome : HttpOutcome) (t1 t2 : Int) (body : Option JVal) :
    HandlerResult :=
  match getReqline body with
  | none => ⟨400, errObj "Invalid reqline input"⟩
  | some reqline =>
    match parseReqline reqline with
    | .error e =>
      ⟨400, errObj (if e = "" then
        "Some error occured. Please check your reqline statement" else e)⟩
    | .ok parsed =>
      let pair :=
        if parsed.method = "GET".data ∨ parsed.method = "POST".data then
          match outcome with
          | .success sc d => (sc, d)
          | .failure cs cd m => (cs.getD 0, jsOrData cd (errObj m))
        else ((0 : Int), JVal.null)
      ⟨200, .obj [
        ("request".data, .obj [
          ("query".data, if jsFalsy parsed.query then .obj [] else parsed.query),
          ("body".data, if jsFalsy parsed.body then .obj [] else parsed.body),
          ("headers".data, if jsFalsy parsed.headers then .obj [] else parsed.headers),
          ("full_url".data, .str parsed.full_url)]),
        ("response".data, .obj [
          ("http_status".data, .num pair.1),
          ("duration".data, .num (t2 - t1)),
          ("request_start_timestamp".data, .num t1),
          ("request_stop_timestamp".data, .num t2),
          ("response_data".data, pair.2)])]⟩

/-! ## Spec-side definition for the URL Builder claim -/

/-- The URL Builder contract as worded by the spec (§4.5): an empty
mapping leaves the base URL unchanged; otherwise each pair serializes as
`percentEncode(key)=percentEncode(String(value))`, the pairs are joined
with `&` in insertion order, and the result is appended after `?`, or
after `&` when the base URL already contains a `?`. -/
def specFullUrl (baseUrl : List Char) (pairs : List (List Char × JVal)) :
    List Char :=
  match pairs with
  | [] => baseUrl
  | _ =>
    baseUrl ++ (if baseUrl.contains '?' then ['&'] else ['?']) ++
      jsJoin ['&'] (pairs.map (fun kv =>
        encodeURIComponent kv.1 ++ ['='] ++ encodeURIComponent (jsToString kv.2)))

/-- The keyword the Keyword Extractor isolates from a segment: the part
before the segment's first space (the whole segment when it has no
space). -/
def segKeyword (seg : List Char) : List Char :=
  match jsIndexOfChar seg ' ' with
  | none => seg
  | some i => seg.take i

/-! ## General lemmas about the segmenter loop -/

/-- Once the remaining input contains no pipe, the scan just emits the
trailing remainder `statement.substring(tokenStartIndex)` as the final
segment. -/
theorem splitLoop_no_pipe (s : List Char) :
    ∀ (rest : List Char) (p2 p1 : Option Char) (i ts : Nat)
      (segs : List (List Char)), '|' ∉ rest →
    splitLoop s p2 p1 rest i ts segs =
      (if (s.drop ts).length = 0 then .error pipeMsg
       else .ok (segs ++ [s.drop ts])) := by
  intro rest
  induction rest with
  | nil => intro p2 p1 i ts segs _; rfl
  | cons c r ih =>
    intro p2 p1 i ts segs hmem
    have hc : c ≠ '|' := fun h => hmem (h ▸ List.mem_cons_self c r)
    rw [splitLoop, if_neg hc]
    exact ih p1 (some c) (i + 1) ts segs (fun h => hmem (List.mem_cons_of_mem c h))

/-- Processing a `URL`-section segment after the `HTTP` section: the raw
value is stored verbatim as the base URL. -/
theorem processSegment_url_after_http (m : List Char) (c : Char)
    (t : List Char) (hc : c ≠ ' ') :
    processSegment ⟨["HTTP".data], m, [], .obj [], .obj [], .obj []⟩
        ('U' :: 'R' :: 'L' :: ' ' :: c :: t) =
      .ok ⟨["URL".data, "HTTP".data], m, c :: t, .obj [], .obj [], .obj []⟩ := by
  simp [processSegment, ensureSingleSpaceAfterKeyword, jsIndexOfChar,
    jsIndexOfSub, jsToUpperCase, allowedKeywords, hc]

/-- C1 scaffolding: segmenting a minimal `HTTP GET | URL u` statement. -/
theorem splitByPipes_get_url (c : Char) (t : List Char)
    (hpipe : '|' ∉ c :: t)
    (hlast : (c :: t).getLast? ≠ some ' ') :
    splitByPipes ("HTTP GET | URL ".data ++ (c :: t)) =
      .ok ["HTTP GET".data, "URL ".data ++ (c :: t)] := by
  rw [splitByPipes,
    if_neg (by simp),
    if_neg (by
      rw [show ("HTTP GET | URL ".data ++ (c :: t)).head? = some 'H' from rfl]
      push_neg
      refine ⟨by decide, ?_⟩
      rw [show "HTTP GET | URL ".data ++ (c :: t) =
        "HTTP GET | URL ".data ++ c :: t from rfl]
      rw [List.getLast?_append_cons]
      exact hlast)]
  rw [show splitLoop ("HTTP GET | URL ".data ++ (c :: t)) none none
        ("HTTP GET | URL ".data ++ (c :: t)) 0 0 [] =
      splitLoop ("HTTP GET | URL ".data ++ (c :: t)) (some 'L') (some ' ')
        (c :: t) 15 11 ["HTTP GET".data] from rfl]
  rw [splitLoop_no_pipe _ _ _ _ _ _ _ hpipe]
  rfl

/-- C1 scaffolding: segmenting a minimal `HTTP POST | URL u` statement. -/
theorem splitByPipes_post_url (c : Char) (t : List Char)
    (hpipe : '|' ∉ c :: t)
    (hlast : (c :: t).getLast? ≠ some ' ') :
    splitByPipes ("HTTP POST | URL ".data ++ (c :: t)) =
      .ok ["HTTP POST".data, "URL ".data ++ (c :: t)] := by
  rw [splitByPipes,
    if_neg (by simp),
    if_neg (by
      rw [show ("HTTP POST | URL ".data ++ (c :: t)).head? = some 'H' from rfl]
      push_neg
      refine ⟨by decide, ?_⟩
      rw [show "HTTP POST | URL ".data ++ (c :: t) =
        "HTTP POST | URL ".data ++ c :: t from rfl]
      rw [List.getLast?_append_cons]
      exact hlast)]
  rw [show splitLoop ("HTTP POST | URL ".data ++ (c :: t)) none none
        ("HTTP POST | URL ".data ++ (c :: t)) 0 0 [] =
      splitLoop ("HTTP POST | URL ".data ++ (c :: t)) (some 'L') (some ' ')
        (c :: t) 16 12 ["HTTP POST".data] from rfl]
  rw [splitLoop_no_pipe _ _ _ _ _ _ _ hpipe]
  rfl

/-- Unfolding `parseReqline` once the segmenter's result is known. -/
theorem parseReqline_after_split (s : List Char) (segs : List (List Char))
    (h : splitByPipes s = .ok segs) :
    parseReqline s =
      (if (segs.getD 0 []).take 4 ≠ "HTTP".data then
        .error "Missing required HTTP keyword"
      else if (segs.getD 1 []).take 3 ≠ "URL".data then
        .error "Missing required URL keyword"
      else
        match runSegments initState segs with
        | .error e => .error e
        | .ok st =>
          .ok { method := st.httpMethod, url := st.baseURL,
                headers := st.headers, query := st.query, body := st.body,
                full_url := constructFullURL st.baseURL st.query }) := by
  unfold parseReqline
  rw [h]

/-- C1: a valid minimal statement `HTTP <M> | URL <u>` parses to a
descriptor with method `M`, url `u`, empty headers, query and body, and a
full URL equal to `u`. -/
theorem c1_minimal_statement (m u : List Char)
    (hm : m = "GET".data ∨ m = "POST".data)
    (hu : u ≠ []) (hpipe : '|' ∉ u)
    (hhead : u.head? ≠ some ' ') (hlast : u.getLast? ≠ some ' ') :
    parseReqline ("HTTP ".data ++ m ++ " | URL ".data ++ u) =
      .ok { method := m, url := u, headers := .obj [], query := .obj [],
            body := .obj [], full_url := u } := by
  obtain ⟨c, t, rfl⟩ : ∃ c t, u = c :: t := by
    cases u with
    | nil => exact absurd rfl hu
    | cons c t => exact ⟨c, t, rfl⟩
  have hc : c ≠ ' ' := by simpa using hhead
  rcases hm with rfl | rfl
  · rw [show ("HTTP ".data ++ "GET".data ++ " | URL ".data ++ (c :: t)) =
        ("HTTP GET | URL ".data ++ (c :: t)) from rfl]
    rw [parseReqline_after_split _ _ (splitByPipes_get_url c t hpipe hlast)]
    rw [show runSegments initState ["HTTP GET".data, "URL ".data ++ (c :: t)] =
        runSegments ⟨["HTTP".data], "GET".data, [], .obj [], .obj [], .obj []⟩
          ['U' :: 'R' :: 'L' :: ' ' :: c :: t] from rfl]
    rw [runSegments, processSegment_url_after_http "GET".data c t hc]
    rfl
  · rw [show ("HTTP ".data ++ "POST".data ++ " | URL ".data ++ (c :: t)) =
        ("HTTP POST | URL ".data ++ (c :: t)) from rfl]
    rw [parseReqline_after_split _ _ (splitByPipes_post_url c t hpipe hlast)]
    rw [show runSegments initState ["HTTP POST".data, "URL ".data ++ (c :: t)] =
        runSegments ⟨["HTTP".data], "POST".data, [], .obj [], .obj [], .obj []⟩
          ['U' :: 'R' :: 'L' :: ' ' :: c :: t] from rfl]
    rw [runSegments, processSegment_url_after_http "POST".data c t hc]
    rfl

/-- C1 witness: the theorem applied at the concrete statement
`HTTP GET | URL http://x`. -/
theorem c1_witness :
    parseReqline ("HTTP ".data ++ "GET".data ++ " | URL ".data ++ "http://x".data) =
      .ok { method := "GET".data, url := "http://x".data, headers := .obj [],
            query := .obj [], body := .obj [], full_url := "http://x".data } :=
  c1_minimal_statement "GET".data "http://x".data (Or.inl rfl)
    (by decide) (by decide) (by decide) (by decide)

/-- C2: evaluation of the Segmenter at the failing input `A | | B`.  The
empty-segment guard of source lines 42–45 is defeated because
`String.prototype.substring(4, 3)` swaps its arguments, so the statement
with adjacent delimiters segments successfully into `A`, a lone space, and
`B` instead of failing with the pipe-spacing error. -/
theorem c2_adjacent_pipes_segment_ok :
    splitByPipes "A | | B".data = .ok ["A".data, [' '], "B".data] := rfl

/-- C3 counterexample: `HTTPS x | URL y` has a first segment that is not
an HTTP section (its keyword is `HTTPS`), yet the 4-character prefix test
of source line 114 passes and parsing fails later, in per-segment
validation, with the unknown-keyword error — not with
`Missing required HTTP keyword` as the claim predicts. -/
theorem c3_counterexample :
    parseReqline "HTTPS x | URL y".data = .error "Keywords must be uppercase" ∧
    "Keywords must be uppercase" ≠ "Missing required HTTP keyword" :=
  ⟨rfl, by decide⟩

/-- C3 (amended): the ordering checks test only the first characters of
the first two segments — `segments[0].slice(0, 4)` against `HTTP` and
`segments[1].slice(0, 3)` against `URL` — not section identity.  With any
successfully segmented statement, a first segment not starting with the
four characters `HTTP` fails with the missing-HTTP-keyword error, and a
first segment starting with `HTTP` whose second segment does not start
with `URL` fails with the missing-URL-keyword error — both regardless of
the segments' contents, i.e. before any per-segment validation.  (A first
segment that merely begins with `HTTP` without being an HTTP section,
such as `HTTPS x`, passes the ordering check and fails only later.) -/
theorem c3_ordering_checks_first (s : List Char) (segs : List (List Char))
    (h : splitByPipes s = .ok segs) :
    ((segs.getD 0 []).take 4 ≠ "HTTP".data →
      parseReqline s = .error "Missing required HTTP keyword") ∧
    ((segs.getD 0 []).take 4 = "HTTP".data →
      (segs.getD 1 []).take 3 ≠ "URL".data →
      parseReqline s = .error "Missing required URL keyword") := by
  rw [parseReqline_after_split s segs h]
  constructor
  · intro h1
    rw [if_pos h1]
  · intro h1 h2
    rw [if_neg (not_not_intro h1), if_pos h2]

/-- C3 witness: the theorem applied at `URL http://x | HTTP GET`, the
spec's own ordering example. -/
theorem c3_witness :
    parseReqline "URL http://x | HTTP GET".data =
      .error "Missing required HTTP keyword" :=
  (c3_ordering_checks_first "URL http://x | HTTP GET".data
    ["URL http://x".data, "HTTP GET".data] rfl).1 (by decide)

/-- C6 counterexample: the Segmenter rejects the empty statement with the
very same message that the assembler's missing-HTTP-keyword ordering check
uses (shown here on `NOPE x`), so the empty-input failure is not a
distinct error. -/
theorem c6_counterexample :
    splitByPipes [] = .error "Missing required HTTP keyword" ∧
    parseReqline "NOPE x".data = .error "Missing required HTTP keyword" :=
  ⟨rfl, rfl⟩

/-- C6 (amended): the empty statement makes the Segmenter fail, but with
the message `Missing required HTTP keyword` shared with the
missing-HTTP-keyword ordering error rather than a distinct empty-input
error. -/
theorem c6_empty_input_error :
    splitByPipes [] = .error "Missing required HTTP keyword" := rfl

/-- C7 counterexample: a segment that repeats the URL section and whose
value starts with an extra space fails with the duplicate-section error,
not with the multiple-spaces error the claim predicts. -/
theorem c7_counterexample :
    parseReqline "HTTP GET | URL x | URL  y".data =
      .error "Duplicate section URL" ∧
    "Duplicate section URL" ≠ "Multiple spaces found where single space expected" :=
  ⟨rfl, by decide⟩

/-- C7 (amended): the duplicate-section rejection runs after the keyword
isolation, uppercase and whitelist checks but before
`ensureSingleSpaceAfterKeyword`, so any segment whose keyword was already
seen fails with `Duplicate section <keyword>` regardless of the spacing of
its value portion. -/
theorem c7_duplicate_before_spacing (st : PState) (seg : List Char) (i : Nat)
    (hidx : jsIndexOfChar seg ' ' = some i)
    (hupper : seg.take i = jsToUpperCase (seg.take i))
    (hallow : seg.take i ∈ allowedKeywords)
    (hseen : seg.take i ∈ st.seen) :
    processSegment st seg =
      .error ("Duplicate section " ++ String.mk (seg.take i)) := by
  unfold processSegment
  rw [hidx]
  simp only [if_neg (not_not_intro hupper), if_neg (not_not_intro hallow),
    if_pos hseen]

/-- C7 witness: the amended theorem applied to the duplicate `URL  y`
segment with an extra space after the keyword. -/
theorem c7_witness :
    processSegment ⟨["URL".data, "HTTP".data], "GET".data, "x".data,
        .obj [], .obj [], .obj []⟩ "URL  y".data =
      .error ("Duplicate section " ++ String.mk ("URL  y".data.take 3)) :=
  c7_duplicate_before_spacing
    ⟨["URL".data, "HTTP".data], "GET".data, "x".data, .obj [], .obj [], .obj []⟩
    "URL  y".data 3 rfl (by decide) (by decide) (by decide)

/-- C4 counterexample: a successful parse whose BODY section is the JSON
numeral `3`; the resulting descriptor's `body` is a number, not a
string-keyed mapping. -/
theorem c4_counterexample :
    parseReqline "HTTP GET | URL x | BODY 3".data =
      .ok { method := "GET".data, url := "x".data, headers := .obj [],
            query := .obj [], body := .num 3, full_url := "x".data } ∧
    JVal.isObj (.num 3) = false :=
  ⟨rfl, rfl⟩

/-! ## The URL Builder claim -/

/-- Looking the keys of an association list with unique keys back up
recovers the original pairs. -/
theorem map_keys_jsLookup (g : List Char → JVal → List Char) :
    ∀ fs : List (List Char × JVal), (fs.map Prod.fst).Nodup →
    (fs.map Prod.fst).map (fun k => g k (jsLookup fs k)) =
      fs.map (fun kv => g kv.1 kv.2) := by
  intro fs
  induction fs with
  | nil => intro _; rfl
  | cons kv t ih =>
    intro hnd
    obtain ⟨k, v⟩ := kv
    rw [List.map_cons, List.map_cons, List.map_cons] at *
    rw [List.nodup_cons] at hnd
    obtain ⟨hk, hnd'⟩ := hnd
    congr 1
    · simp [jsLookup]
    · rw [List.map_congr_left (g := fun k' => g k' (jsLookup t k'))]
      · exact ih hnd'
      · intro a ha
        have hak : k ≠ a := fun h => hk (h ▸ ha)
        simp [jsLookup, hak]

/-- A joined list of `key=value` serializations is never empty. -/
theorem jsJoin_pairs_ne_nil (a b : List Char) (rest : List (List Char)) :
    jsJoin ['&'] ((a ++ ['='] ++ b) :: rest) ≠ [] := by
  cases rest with
  | nil => simp [jsJoin]
  | cons q r => simp [jsJoin]

/-- When no key of the mapping is a JS array index, `Object.keys`
enumeration collapses to pure insertion order. -/
theorem jsOwnKeys_no_index (fs : List (List Char × JVal))
    (hno : ∀ k ∈ fs.map Prod.fst, isArrayIndexKey k = false) :
    jsOwnKeys (.obj fs) = fs.map Prod.fst := by
  have h1 : (fs.map (fun kv : List Char × JVal => kv.1)).filter
      isArrayIndexKey = [] := by
    rw [List.filter_eq_nil_iff]
    intro a ha
    simp [hno a ha]
  have h2 : (fs.map (fun kv : List Char × JVal => kv.1)).filter
      (fun k => !isArrayIndexKey k) = fs.map (fun kv => kv.1) := by
    rw [List.filter_eq_self]
    intro a ha
    simp [hno a ha]
  show sortAscKeys ((fs.map (fun kv => kv.1)).filter isArrayIndexKey) ++
      (fs.map (fun kv => kv.1)).filter (fun k => !isArrayIndexKey k) =
    fs.map Prod.fst
  rw [h1, h2]
  rfl

/-- C5 counterexample: for the mapping `b=1, 0=2` the program serializes
the array-index key `0` first (`Object.keys` enumeration order), while
the claim's insertion order would put `b` first, so `constructFullURL`
differs from the insertion-order serialization `specFullUrl`. -/
theorem c5_counterexample :
    constructFullURL "http://x".data
        (.obj [("b".data, .str "1".data), ("0".data, .str "2".data)]) =
      "http://x?0=2&b=1".data ∧
    specFullUrl "http://x".data
        [("b".data, .str "1".data), ("0".data, .str "2".data)] =
      "http://x?b=1&0=2".data ∧
    ("http://x?0=2&b=1".data : List Char) ≠ "http://x?b=1&0=2".data :=
  ⟨rfl, rfl, by decide⟩

/-- C5 (amended): on a query mapping with unique keys none of which is a
JS array index — so that `Object.keys` enumeration coincides with
insertion order — `constructFullURL` behaves exactly as the spec's URL
Builder contract `specFullUrl`: unchanged base URL for an empty mapping,
otherwise percent-encoded `key=value` pairs in insertion order joined by
`&`, appended after `?`, or after `&` when the base URL already contains
`?`.  (With array-index keys present, those keys are emitted first in
ascending numeric order.) -/
theorem c5_url_builder (baseUrl : List Char) (fs : List (List Char × JVal))
    (hnd : (fs.map Prod.fst).Nodup)
    (hno : ∀ k ∈ fs.map Prod.fst, isArrayIndexKey k = false) :
    constructFullURL baseUrl (.obj fs) = specFullUrl baseUrl fs := by
  cases fs with
  | nil => rfl
  | cons kv t =>
    obtain ⟨k, v⟩ := kv
    have hkeys : jsOwnKeys (.obj ((k, v) :: t)) = ((k, v) :: t).map Prod.fst :=
      jsOwnKeys_no_index ((k, v) :: t) hno
    have hq : buildQueryString (.obj ((k, v) :: t)) =
        jsJoin ['&'] (((k, v) :: t).map (fun p =>
          encodeURIComponent p.1 ++ ['='] ++
            encodeURIComponent (jsToString p.2))) := by
      rw [buildQueryString, hkeys]
      rw [if_neg (by simp)]
      exact congrArg (jsJoin ['&'])
        (map_keys_jsLookup (fun k' v' => encodeURIComponent k' ++ ['='] ++
          encodeURIComponent (jsToString v')) ((k, v) :: t) hnd)
    show (if buildQueryString (.obj ((k, v) :: t)) = [] then baseUrl
      else baseUrl ++ (if baseUrl.contains '?' then ['&'] else ['?']) ++
        buildQueryString (.obj ((k, v) :: t))) = specFullUrl baseUrl ((k, v) :: t)
    rw [hq, List.map_cons]
    rw [if_neg (jsJoin_pairs_ne_nil _ _ _)]
    rfl

/-- C5 witness: the amended theorem applied at the spec's round-trip
example, base URL `http://x/y` and query pairs `a=1`, `b=2` (no
array-index keys). -/
theorem c5_witness :
    constructFullURL "http://x/y".data
        (.obj [("a".data, .str "1".data), ("b".data, .str "2".data)]) =
      specFullUrl "http://x/y".data
        [("a".data, .str "1".data), ("b".data, .str "2".data)] :=
  c5_url_builder "http://x/y".data
    [("a".data, .str "1".data), ("b".data, .str "2".data)] (by decide) (by decide)

/-! ## Anatomy of a successful segment step -/

/-- The character found by `jsIndexOfChar` really is at the reported
index. -/
theorem jsIndexOfChar_get (c : Char) :
    ∀ (l : List Char) (i : Nat), jsIndexOfChar l c = some i →
    l.get? i = some c := by
  intro l
  induction l with
  | nil => intro i h; exact absurd h (by simp [jsIndexOfChar])
  | cons a t ih =>
    intro i h
    rw [jsIndexOfChar] at h
    by_cases ha : a = c
    · rw [if_pos ha] at h
      injection h with h'
      subst h'
      simp [ha]
    · rw [if_neg ha] at h
      cases hj : jsIndexOfChar t c with
      | none => rw [hj] at h; exact absurd h (by simp)
      | some j =>
        rw [hj] at h
        simp only [Option.map_some', Option.some.injEq] at h
        subst h
        simpa using ih j hj

/-- A successful `ensureSingleSpaceAfterKeyword` run on a segment whose
keyword is the part before its first space leaves a non-empty value: the
segment extends strictly past the single separating space. -/
theorem ensure_ok_value_bound (seg : List Char) (i : Nat) (b : Bool)
    (hidx : jsIndexOfChar seg ' ' = some i)
    (h : ensureSingleSpaceAfterKeyword seg (seg.take i) = .ok b) :
    i + 1 < seg.length := by
  have hget : seg.get? i = some ' ' := jsIndexOfChar_get ' ' seg i hidx
  have hlt : i < seg.length := by
    rcases List.get?_eq_some.1 hget with ⟨h', _⟩
    exact h'
  unfold ensureSingleSpaceAfterKeyword at h
  have hsub : jsIndexOfSub seg (seg.take i) = some 0 := by
    cases seg with
    | nil => simp at hlt
    | cons a t =>
      rw [jsIndexOfSub]
      have hlen : ((a :: t).take i).length = i := by
        rw [List.length_take]
        omega
      rw [hlen]
      simp
  rw [if_neg (not_not_intro hsub)] at h
  have hexplen : (seg.take i ++ [' ']).length = i + 1 := by
    simp [List.length_take]
    omega
  have hexp : seg.take ((seg.take i ++ [' ']).length) = seg.take i ++ [' '] := by
    rw [hexplen, List.take_succ]
    have : seg[i]? = some ' ' := by rw [← List.get?_eq_getElem?]; exact hget
    rw [this]
    rfl
  rw [if_neg (not_not_intro hexp)] at h
  by_cases hlen : seg.length = (seg.take i ++ [' ']).length
  · rw [if_pos hlen] at h
    exact absurd h (by simp)
  · rw [hexplen] at hlen
    omega

/-- Full anatomy of a successful segment step: the keyword is the part
before the first space, it is whitelisted, fresh, and recorded; the HTTP
branch leaves a whitelisted method, the URL branch stores the non-empty
raw value, and every other field of the state is untouched unless its own
section keyword was processed. -/
theorem processSegment_ok_spec (st st' : PState) (seg : List Char)
    (h : processSegment st seg = .ok st') :
    ∃ i, jsIndexOfChar seg ' ' = some i ∧
      seg.take i ∈ allowedKeywords ∧ seg.take i ∉ st.seen ∧
      st'.seen = seg.take i :: st.seen ∧
      (seg.take i = "HTTP".data →
        st'.httpMethod = "GET".data ∨ st'.httpMethod = "POST".data) ∧
      (seg.take i ≠ "HTTP".data → st'.httpMethod = st.httpMethod) ∧
      (seg.take i = "URL".data →
        st'.baseURL = seg.drop (i + 1) ∧ st'.baseURL ≠ []) ∧
      (seg.take i ≠ "URL".data → st'.baseURL = st.baseURL) ∧
      (seg.take i ≠ "HEADERS".data → st'.headers = st.headers) ∧
      (seg.take i ≠ "QUERY".data → st'.query = st.query) ∧
      (seg.take i ≠ "BODY".data → st'.body = st.body) := by
  unfold processSegment at h
  cases hidx : jsIndexOfChar seg ' ' with
  | none => rw [hidx] at h; exact absurd h (by simp)
  | some i =>
    rw [hidx] at h
    simp only [] at h
    refine ⟨i, rfl, ?_⟩
    by_cases hup : seg.take i ≠ jsToUpperCase (seg.take i)
    · rw [if_pos hup] at h; exact absurd h (by simp)
    rw [if_neg hup] at h
    by_cases hal : seg.take i ∉ allowedKeywords
    · rw [if_pos hal] at h; exact absurd h (by simp)
    rw [if_neg hal] at h
    rw [not_not] at hal
    by_cases hsn : seg.take i ∈ st.seen
    · rw [if_pos hsn] at h; exact absurd h (by simp)
    rw [if_neg hsn] at h
    refine ⟨hal, hsn, ?_⟩
    cases hens : ensureSingleSpaceAfterKeyword seg (seg.take i) with
    | error e => rw [hens] at h; exact absurd h (by simp)
    | ok b =>
      rw [hens] at h
      have hbound : i + 1 < seg.length := ensure_ok_value_bound seg i b hidx hens
      have hvalne : seg.drop (i + 1) ≠ [] := by
        rw [Ne, List.drop_eq_nil_iff]
        omega
      by_cases hk1 : seg.take i = "HTTP".data
      · rw [if_pos hk1] at h
        by_cases hm1 : seg.drop (i + 1) ≠ jsToUpperCase (seg.drop (i + 1))
        · rw [if_pos hm1] at h; exact absurd h (by simp)
        rw [if_neg hm1] at h
        by_cases hm2 : seg.drop (i + 1) ≠ "GET".data ∧ seg.drop (i + 1) ≠ "POST".data
        · rw [if_pos hm2] at h; exact absurd h (by simp)
        rw [if_neg hm2] at h
        rw [not_and_or, not_not, not_not] at hm2
        injection h with h
        subst h
        refine ⟨rfl, fun _ => ?_, fun hne => absurd hk1 hne, ?_, ?_, ?_, ?_, ?_⟩
        · rcases hm2 with h2 | h2 <;> [left; right] <;> exact h2
        · intro hurl; rw [hk1] at hurl; exact absurd hurl (by decide)
        all_goals intro _
        all_goals rfl
      · rw [if_neg hk1] at h
        by_cases hk2 : seg.take i = "URL".data
        · rw [if_pos hk2] at h
          injection h with h
          subst h
          exact ⟨rfl, fun hc => absurd hc hk1, fun _ => rfl,
            fun _ => ⟨rfl, hvalne⟩, fun hc => absurd hk2 hc,
            fun _ => rfl, fun _ => rfl, fun _ => rfl⟩
        · rw [if_neg hk2] at h
          by_cases hk3 : seg.take i = "HEADERS".data
          · rw [if_pos hk3] at h
            cases hj : parseJSONStrict (seg.drop (i + 1)) "HEADERS" with
            | error e => rw [hj] at h; exact absurd h (by simp [Except.map])
            | ok j =>
              rw [hj] at h
              injection h with h
              subst h
              exact ⟨rfl, fun hc => absurd hc hk1, fun _ => rfl,
                fun hc => absurd hc hk2, fun _ => rfl,
                fun hc => absurd hk3 hc, fun _ => rfl, fun _ => rfl⟩
          · rw [if_neg hk3] at h
            by_cases hk4 : seg.take i = "QUERY".data
            · rw [if_pos hk4] at h
              cases hj : parseJSONStrict (seg.drop (i + 1)) "QUERY" with
              | error e => rw [hj] at h; exact absurd h (by simp [Except.map])
              | ok j =>
                rw [hj] at h
                injection h with h
                subst h
                exact ⟨rfl, fun hc => absurd hc hk1, fun _ => rfl,
                  fun hc => absurd hc hk2, fun _ => rfl, fun _ => rfl,
                  fun hc => absurd hk4 hc, fun _ => rfl⟩
            · rw [if_neg hk4] at h
              by_cases hk5 : seg.take i = "BODY".data
              · rw [if_pos hk5] at h
                cases hj : parseJSONStrict (seg.drop (i + 1)) "BODY" with
                | error e => rw [hj] at h; exact absurd h (by simp [Except.map])
                | ok j =>
                  rw [hj] at h
                  injection h with h
                  subst h
                  exact ⟨rfl, fun hc => absurd hc hk1, fun _ => rfl,
                    fun hc => absurd hc hk2, fun _ => rfl, fun _ => rfl,
                    fun _ => rfl, fun hc => absurd hk5 hc⟩
              · rw [if_neg hk5] at h
                injection h with h
                subst h
                exact ⟨rfl, fun hc => absurd hc hk1, fun _ => rfl,
                  fun hc => absurd hc hk2, fun _ => rfl, fun _ => rfl,
                  fun _ => rfl, fun _ => rfl⟩

/-- Running the remaining segments preserves the already-seen set, keeps
the method and base URL of sections already seen, and leaves the
headers/query/body fields untouched when no remaining segment carries the
corresponding keyword. -/
theorem runSegments_preserve (segs : List (List Char)) : ∀ st st' : PState,
    runSegments st segs = .ok st' →
    st.seen ⊆ st'.seen ∧
    ("HTTP".data ∈ st.seen → st'.httpMethod = st.httpMethod) ∧
    ("URL".data ∈ st.seen → st'.baseURL = st.baseURL) ∧
    ((∀ seg ∈ segs, segKeyword seg ≠ "HEADERS".data) →
      st'.headers = st.headers) ∧
    ((∀ seg ∈ segs, segKeyword seg ≠ "QUERY".data) → st'.query = st.query) ∧
    ((∀ seg ∈ segs, segKeyword seg ≠ "BODY".data) → st'.body = st.body) := by
  induction segs with
  | nil =>
    intro st st' h
    rw [runSegments] at h
    injection h with h
    subst h
    exact ⟨fun _ hx => hx, fun _ => rfl, fun _ => rfl,
      fun _ => rfl, fun _ => rfl, fun _ => rfl⟩
  | cons seg rest ih =>
    intro st st' h
    rw [runSegments] at h
    cases hstep : processSegment st seg with
    | error e => rw [hstep] at h; exact absurd h (by simp)
    | ok st1 =>
      rw [hstep] at h
      obtain ⟨i, hidx, _, hfresh, hseen, _, hmeth, _, hurl, hhead, hq, hb⟩ :=
        processSegment_ok_spec st st1 seg hstep
      have hkw : segKeyword seg = seg.take i := by
        rw [segKeyword, hidx]
      obtain ⟨ihsub, ihmeth, ihurl, ihhead, ihq, ihb⟩ := ih st1 st' h
      refine ⟨?_, ?_, ?_, ?_, ?_, ?_⟩
      · intro x hx
        exact ihsub (hseen ▸ List.mem_cons_of_mem _ hx)
      · intro hin
        rw [ihmeth (hseen ▸ List.mem_cons_of_mem _ hin)]
        exact hmeth (fun he => hfresh (he ▸ hin))
      · intro hin
        rw [ihurl (hseen ▸ List.mem_cons_of_mem _ hin)]
        exact hurl (fun he => hfresh (he ▸ hin))
      · intro hall
        rw [ihhead (fun s hs => hall s (List.mem_cons_of_mem _ hs))]
        exact hhead (hkw ▸ hall seg (List.mem_cons_self _ _))
      · intro hall
        rw [ihq (fun s hs => hall s (List.mem_cons_of_mem _ hs))]
        exact hq (hkw ▸ hall seg (List.mem_cons_self _ _))
      · intro hall
        rw [ihb (fun s hs => hall s (List.mem_cons_of_mem _ hs))]
        exact hb (hkw ▸ hall seg (List.mem_cons_self _ _))

/-- When a segment starts with `HTTP` and its keyword is whitelisted, the
keyword is exactly `HTTP` and the first space sits at index 4. -/
theorem keyword_http_of_take4 (seg : List Char) (i : Nat)
    (hidx : jsIndexOfChar seg ' ' = some i)
    (h4 : seg.take 4 = "HTTP".data)
    (hallow : seg.take i ∈ allowedKeywords) :
    seg.take i = "HTTP".data ∧ i = 4 := by
  have hget : seg.get? i = some ' ' := jsIndexOfChar_get ' ' seg i hidx
  have hlt : i < seg.length := by
    rcases List.get?_eq_some.1 hget with ⟨h', _⟩
    exact h'
  have hge : 4 ≤ i := by
    by_contra hlt4
    push_neg at hlt4
    have hbad : "HTTP".data.get? i = some ' ' := by
      rw [← h4, List.get?_take hlt4]
      exact hget
    interval_cases i <;> exact absurd hbad (by decide)
  have hlen : (seg.take i).length = i := by
    rw [List.length_take]
    omega
  have htt : (seg.take i).take 4 = "HTTP".data := by
    rw [List.take_take, Nat.min_eq_left hge]
    exact h4
  simp only [allowedKeywords, List.mem_cons, List.not_mem_nil, or_false] at hallow
  rcases hallow with hkw | hkw | hkw | hkw | hkw
  · refine ⟨hkw, ?_⟩
    rw [hkw] at hlen
    simpa using hlen.symm
  all_goals rw [hkw] at htt
  all_goals exact absurd htt (by decide)

/-- When a segment starts with `URL` and its keyword is whitelisted, the
keyword is exactly `URL` and the first space sits at index 3. -/
theorem keyword_url_of_take3 (seg : List Char) (i : Nat)
    (hidx : jsIndexOfChar seg ' ' = some i)
    (h3 : seg.take 3 = "URL".data)
    (hallow : seg.take i ∈ allowedKeywords) :
    seg.take i = "URL".data ∧ i = 3 := by
  have hget : seg.get? i = some ' ' := jsIndexOfChar_get ' ' seg i hidx
  have hlt : i < seg.length := by
    rcases List.get?_eq_some.1 hget with ⟨h', _⟩
    exact h'
  have hge : 3 ≤ i := by
    by_contra hlt3
    push_neg at hlt3
    have hbad : "URL".data.get? i = some ' ' := by
      rw [← h3, List.get?_take hlt3]
      exact hget
    interval_cases i <;> exact absurd hbad (by decide)
  have hlen : (seg.take i).length = i := by
    rw [List.length_take]
    omega
  have htt : (seg.take i).take 3 = "URL".data := by
    rw [List.take_take, Nat.min_eq_left hge]
    exact h3
  simp only [allowedKeywords, List.mem_cons, List.not_mem_nil, or_false] at hallow
  rcases hallow with hkw | hkw | hkw | hkw | hkw
  · rw [hkw] at htt
    exact absurd htt (by decide)
  · refine ⟨hkw, ?_⟩
    rw [hkw] at hlen
    simpa using hlen.symm
  all_goals rw [hkw] at htt
  all_goals exact absurd htt (by decide)

/-- Dissection of a successful `parseReqline` run: the segment loop
succeeded, the descriptor's fields are the final loop state, and the
first two segments passed the ordering checks. -/
theorem parseReqline_ok_run (s : List Char) (segs : List (List Char))
    (d : ReqDescriptor) (hsplit : splitByPipes s = .ok segs)
    (h : parseReqline s = .ok d) :
    ∃ st : PState, runSegments initState segs = .ok st ∧
      d.method = st.httpMethod ∧ d.url = st.baseURL ∧
      d.headers = st.headers ∧ d.query = st.query ∧ d.body = st.body ∧
      (segs.getD 0 []).take 4 = "HTTP".data ∧
      (segs.getD 1 []).take 3 = "URL".data := by
  rw [parseReqline_after_split s segs hsplit] at h
  by_cases h0 : (segs.getD 0 []).take 4 ≠ "HTTP".data
  · rw [if_pos h0] at h
    exact absurd h (by simp)
  rw [if_neg h0] at h
  rw [not_not] at h0
  by_cases h1 : (segs.getD 1 []).take 3 ≠ "URL".data
  · rw [if_pos h1] at h
    exact absurd h (by simp)
  rw [if_neg h1] at h
  rw [not_not] at h1
  cases hrun : runSegments initState segs with
  | error e => rw [hrun] at h; exact absurd h (by simp)
  | ok st =>
    rw [hrun] at h
    injection h with h
    subst h
    exact ⟨st, rfl, rfl, rfl, rfl, rfl, rfl, h0, h1⟩

/-- C8: every successful parse yields a descriptor whose method is GET or
POST and whose url is the non-empty value taken verbatim from the URL
section (the second segment, after `URL` and the single space). -/
theorem c8_invariants (s : List Char) (segs : List (List Char))
    (d : ReqDescriptor) (hsplit : splitByPipes s = .ok segs)
    (h : parseReqline s = .ok d) :
    (d.method = "GET".data ∨ d.method = "POST".data) ∧
    d.url = (segs.getD 1 []).drop 4 ∧ d.url ≠ [] := by
  obtain ⟨st, hrun, hdm, hdu, _, _, _, h0, h1⟩ :=
    parseReqline_ok_run s segs d hsplit h
  cases segs with
  | nil => exact absurd h0 (by decide)
  | cons s0 rest =>
    cases rest with
    | nil =>
      rw [show (([s0] : List (List Char)).getD 1 []) = [] from rfl] at h1
      exact absurd h1 (by decide)
    | cons s1 rest2 =>
      have h0' : s0.take 4 = "HTTP".data := h0
      have h1' : s1.take 3 = "URL".data := h1
      rw [runSegments] at hrun
      cases hstep0 : processSegment initState s0 with
      | error e => rw [hstep0] at hrun; exact absurd hrun (by simp)
      | ok st1 =>
        rw [hstep0] at hrun
        simp only [] at hrun
        rw [runSegments] at hrun
        cases hstep1 : processSegment st1 s1 with
        | error e => rw [hstep1] at hrun; exact absurd hrun (by simp)
        | ok st2 =>
          rw [hstep1] at hrun
          simp only [] at hrun
          obtain ⟨i0, hidx0, hal0, _, hseen0, hhttp0, _, _, _, _, _, _⟩ :=
            processSegment_ok_spec _ _ _ hstep0
          obtain ⟨hkw0, _⟩ := keyword_http_of_take4 s0 i0 hidx0 h0' hal0
          obtain ⟨i1, hidx1, hal1, _, hseen1, _, hmeth1, hurl1, _, _, _, _⟩ :=
            processSegment_ok_spec _ _ _ hstep1
          obtain ⟨hkw1, hi1⟩ := keyword_url_of_take3 s1 i1 hidx1 h1' hal1
          have hm1 : st1.httpMethod = "GET".data ∨ st1.httpMethod = "POST".data :=
            hhttp0 hkw0
          have hhttp_in1 : "HTTP".data ∈ st1.seen := by
            rw [hseen0, hkw0]
            exact List.mem_cons_self _ _
          have hm2 : st2.httpMethod = st1.httpMethod := by
            refine hmeth1 ?_
            rw [hkw1]
            decide
          obtain ⟨hb2, hb2ne⟩ := hurl1 hkw1
          have hhttp_in2 : "HTTP".data ∈ st2.seen := by
            rw [hseen1]
            exact List.mem_cons_of_mem _ hhttp_in1
          have hurl_in2 : "URL".data ∈ st2.seen := by
            rw [hseen1, hkw1]
            exact List.mem_cons_self _ _
          obtain ⟨_, hpm, hpu, _, _, _⟩ :=
            runSegments_preserve rest2 st2 st hrun
          refine ⟨?_, ?_, ?_⟩
          · rw [hdm, hpm hhttp_in2, hm2]
            exact hm1
          · rw [hdu, hpu hurl_in2, hb2, hi1]
            rfl
          · rw [hdu, hpu hurl_in2]
            exact hb2ne

/-- C8 witness: the theorem applied at `HTTP GET | URL http://x`. -/
theorem c8_witness :
    ("GET".data = "GET".data ∨ "GET".data = "POST".data) ∧
    "http://x".data = (["HTTP GET".data, "URL http://x".data].getD 1 []).drop 4 ∧
    ("http://x".data : List Char) ≠ [] :=
  c8_invariants "HTTP GET | URL http://x".data
    ["HTTP GET".data, "URL http://x".data]
    { method := "GET".data, url := "http://x".data, headers := .obj [],
      query := .obj [], body := .obj [], full_url := "http://x".data }
    rfl rfl

/-- C4 (amended): the headers/query/body fields of a successful parse are
whatever JSON value their section decoded to, and each one keeps its
empty-mapping default whenever no segment carries the corresponding
keyword. -/
theorem c4_defaults (s : List Char) (segs : List (List Char))
    (d : ReqDescriptor) (hsplit : splitByPipes s = .ok segs)
    (h : parseReqline s = .ok d) :
    ((∀ seg ∈ segs, segKeyword seg ≠ "HEADERS".data) → d.headers = .obj []) ∧
    ((∀ seg ∈ segs, segKeyword seg ≠ "QUERY".data) → d.query = .obj []) ∧
    ((∀ seg ∈ segs, segKeyword seg ≠ "BODY".data) → d.body = .obj []) := by
  obtain ⟨st, hrun, _, _, hdh, hdq, hdb, _, _⟩ :=
    parseReqline_ok_run s segs d hsplit h
  obtain ⟨_, _, _, hh, hq, hb⟩ := runSegments_preserve segs initState st hrun
  refine ⟨fun hall => ?_, fun hall => ?_, fun hall => ?_⟩
  · rw [hdh, hh hall]
    rfl
  · rw [hdq, hq hall]
    rfl
  · rw [hdb, hb hall]
    rfl

/-- C4 witness: the amended theorem applied at `HTTP GET | URL x`, whose
statement carries no HEADERS section. -/
theorem c4_witness :
    ({ method := "GET".data, url := "x".data, headers := JVal.obj [],
       query := JVal.obj [], body := JVal.obj [],
       full_url := "x".data : ReqDescriptor }).headers = JVal.obj [] :=
  (c4_defaults "HTTP GET | URL x".data ["HTTP GET".data, "URL x".data]
    { method := "GET".data, url := "x".data, headers := .obj [],
      query := .obj [], body := .obj [], full_url := "x".data }
    rfl rfl).1 (by decide)

/-! ## Parse failures carry non-empty messages -/

/-- The scanning loop only ever fails with the pipe-spacing message. -/
theorem splitLoop_error_msg (s : List Char) :
    ∀ (rest : List Char) (p2 p1 : Option Char) (i ts : Nat)
      (segs : List (List Char)) (e : String),
    splitLoop s p2 p1 rest i ts segs = .error e → e = pipeMsg := by
  intro rest
  induction rest with
  | nil =>
    intro p2 p1 i ts segs e h
    rw [splitLoop] at h
    by_cases hl : (s.drop ts).length = 0
    · rw [if_pos hl] at h
      injection h with h
      exact h.symm
    · rw [if_neg hl] at h
      exact absurd h (by simp)
  | cons c r ih =>
    intro p2 p1 i ts segs e h
    rw [splitLoop] at h
    by_cases hc : c = '|'
    · rw [if_pos hc] at h
      by_cases h1 : p1 ≠ some ' '
      · rw [if_pos h1] at h; injection h with h; exact h.symm
      rw [if_neg h1] at h
      by_cases h2 : r.head? ≠ some ' '
      · rw [if_pos h2] at h; injection h with h; exact h.symm
      rw [if_neg h2] at h
      by_cases h3 : p2 = some ' '
      · rw [if_pos h3] at h; injection h with h; exact h.symm
      rw [if_neg h3] at h
      by_cases h4 : r.get? 1 = some ' '
      · rw [if_pos h4] at h; injection h with h; exact h.symm
      rw [if_neg h4] at h
      simp only [] at h
      by_cases h5 : (jsSubstring s ts (i - 1)).length = 0
      · rw [if_pos h5] at h; injection h with h; exact h.symm
      · rw [if_neg h5] at h
        exact ih _ _ _ _ _ _ h
    · rw [if_neg hc] at h
      exact ih _ _ _ _ _ _ h

/-- The Segmenter never fails with an empty message. -/
theorem splitByPipes_error_ne (s : List Char) (e : String)
    (h : splitByPipes s = .error e) : e ≠ "" := by
  unfold splitByPipes at h
  by_cases h0 : s.length = 0
  · rw [if_pos h0] at h
    injection h with h
    rw [← h]
    decide
  rw [if_neg h0] at h
  by_cases h1 : s.head? = some ' ' ∨ s.getLast? = some ' '
  · rw [if_pos h1] at h
    injection h with h
    rw [← h]
    decide
  · rw [if_neg h1] at h
    rw [splitLoop_error_msg s s none none 0 0 [] e h]
    decide

/-- `ensureSingleSpaceAfterKeyword` never fails with an empty message. -/
theorem ensure_error_ne (seg kw : List Char) (e : String)
    (h : ensureSingleSpaceAfterKeyword seg kw = .error e) : e ≠ "" := by
  unfold ensureSingleSpaceAfterKeyword at h
  by_cases h1 : jsIndexOfSub seg kw ≠ some 0
  · rw [if_pos h1] at h
    exact absurd h (by simp)
  rw [if_neg h1] at h
  simp only [] at h
  by_cases h2 : seg.take (kw ++ [' ']).length ≠ kw ++ [' ']
  · rw [if_pos h2] at h
    exact absurd h (by simp)
  rw [if_neg h2] at h
  by_cases h3 : seg.length = (kw ++ [' ']).length
  · rw [if_pos h3] at h
    injection h with h
    rw [← h]
    decide
  rw [if_neg h3] at h
  by_cases h4 : seg.get? (kw ++ [' ']).length = some ' '
  · rw [if_pos h4] at h
    injection h with h
    rw [← h]
    decide
  · rw [if_neg h4] at h
    exact absurd h (by simp)

/-- `parseJSONStrict` never fails with an empty message. -/
theorem parseJSONStrict_error_ne (v : List Char) (n : String) (e : String)
    (h : parseJSONStrict v n = .error e) : e ≠ "" := by
  unfold parseJSONStrict at h
  cases hj : jsonParse v with
  | some j => rw [hj] at h; exact absurd h (by simp)
  | none =>
    rw [hj] at h
    simp only [] at h
    by_cases h1 : n = "HEADERS"
    · rw [if_pos h1] at h; injection h with h; rw [← h]; decide
    rw [if_neg h1] at h
    by_cases h2 : n = "QUERY"
    · rw [if_pos h2] at h; injection h with h; rw [← h]; decide
    rw [if_neg h2] at h
    by_cases h3 : n = "BODY"
    · rw [if_pos h3] at h; injection h with h; rw [← h]; decide
    · rw [if_neg h3] at h; injection h with h; rw [← h]; decide

/-- A segment step never fails with an empty message. -/
theorem processSegment_error_ne (st : PState) (seg : List Char) (e : String)
    (h : processSegment st seg = .error e) : e ≠ "" := by
  unfold processSegment at h
  cases hidx : jsIndexOfChar seg ' ' with
  | none =>
    rw [hidx] at h
    injection h with h
    rw [← h]
    decide
  | some i =>
    rw [hidx] at h
    simp only [] at h
    by_cases hup : seg.take i ≠ jsToUpperCase (seg.take i)
    · rw [if_pos hup] at h; injection h with h; rw [← h]; decide
    rw [if_neg hup] at h
    by_cases hal : seg.take i ∉ allowedKeywords
    · rw [if_pos hal] at h; injection h with h; rw [← h]; decide
    rw [if_neg hal] at h
    by_cases hsn : seg.take i ∈ st.seen
    · rw [if_pos hsn] at h
      injection h with h
      rw [← h]
      intro hbad
      have hl := congrArg String.length hbad
      rw [String.length_append] at hl
      rw [show ("Duplicate section " : String).length = 18 from rfl] at hl
      rw [show ("" : String).length = 0 from rfl] at hl
      omega
    rw [if_neg hsn] at h
    cases hens : ensureSingleSpaceAfterKeyword seg (seg.take i) with
    | error e' =>
      rw [hens] at h
      injection h with h
      rw [← h]
      exact ensure_error_ne _ _ _ hens
    | ok b =>
      rw [hens] at h
      by_cases hk1 : seg.take i = "HTTP".data
      · rw [if_pos hk1] at h
        by_cases hm1 : seg.drop (i + 1) ≠ jsToUpperCase (seg.drop (i + 1))
        · rw [if_pos hm1] at h; injection h with h; rw [← h]; decide
        rw [if_neg hm1] at h
        by_cases hm2 : seg.drop (i + 1) ≠ "GET".data ∧ seg.drop (i + 1) ≠ "POST".data
        · rw [if_pos hm2] at h; injection h with h; rw [← h]; decide
        · rw [if_neg hm2] at h; exact absurd h (by simp)
      rw [if_neg hk1] at h
      by_cases hk2 : seg.take i = "URL".data
      · rw [if_pos hk2] at h; exact absurd h (by simp)
      rw [if_neg hk2] at h
      by_cases hk3 : seg.take i = "HEADERS".data
      · rw [if_pos hk3] at h
        cases hj : parseJSONStrict (seg.drop (i + 1)) "HEADERS" with
        | error e' =>
          rw [hj] at h
          injection h with h
          rw [← h]
          exact parseJSONStrict_error_ne _ _ _ hj
        | ok j => rw [hj] at h; exact absurd h (by simp [Except.map])
      rw [if_neg hk3] at h
      by_cases hk4 : seg.take i = "QUERY".data
      · rw [if_pos hk4] at h
        cases hj : parseJSONStrict (seg.drop (i + 1)) "QUERY" with
        | error e' =>
          rw [hj] at h
          injection h with h
          rw [← h]
          exact parseJSONStrict_error_ne _ _ _ hj
        | ok j => rw [hj] at h; exact absurd h (by simp [Except.map])
      rw [if_neg hk4] at h
      by_cases hk5 : seg.take i = "BODY".data
      · rw [if_pos hk5] at h
        cases hj : parseJSONStrict (seg.drop (i + 1)) "BODY" with
        | error e' =>
          rw [hj] at h
          injection h with h
          rw [← h]
          exact parseJSONStrict_error_ne _ _ _ hj
        | ok j => rw [hj] at h; exact absurd h (by simp [Except.map])
      · rw [if_neg hk5] at h
        exact absurd h (by simp)

/-- The segment loop never fails with an empty message. -/
theorem runSegments_error_ne (segs : List (List Char)) : ∀ (st : PState)
    (e : String), runSegments st segs = .error e → e ≠ "" := by
  induction segs with
  | nil =>
    intro st e h
    rw [runSegments] at h
    exact absurd h (by simp)
  | cons seg rest ih =>
    intro st e h
    rw [runSegments] at h
    cases hstep : processSegment st seg with
    | error e' =>
      rw [hstep] at h
      injection h with h
      rw [← h]
      exact processSegment_error_ne _ _ _ hstep
    | ok st1 =>
      rw [hstep] at h
      simp only [] at h
      exact ih st1 e h

/-- C9 scaffolding: `parseReqline` never fails with an empty message, so
the handler's `error.message || fallback` always surfaces the original
message. -/
theorem parseReqline_error_ne (s : List Char) (e : String)
    (h : parseReqline s = .error e) : e ≠ "" := by
  unfold parseReqline at h
  cases hsp : splitByPipes s with
  | error e' =>
    rw [hsp] at h
    injection h with h
    rw [← h]
    exact splitByPipes_error_ne _ _ hsp
  | ok segs =>
    rw [hsp] at h
    simp only [] at h
    by_cases h0 : (segs.getD 0 []).take 4 ≠ "HTTP".data
    · rw [if_pos h0] at h; injection h with h; rw [← h]; decide
    rw [if_neg h0] at h
    by_cases h1 : (segs.getD 1 []).take 3 ≠ "URL".data
    · rw [if_pos h1] at h; injection h with h; rw [← h]; decide
    rw [if_neg h1] at h
    cases hrun : runSegments initState segs with
    | error e' =>
      rw [hrun] at h
      injection h with h
      rw [← h]
      exact runSegments_error_ne _ _ _ hrun
    | ok st => rw [hrun] at h; exact absurd h (by simp)

/-- C9: the handler answers 400 with an `{error: true, message}` body
exactly when the reqline guard or the parse fails — and answers 200
whenever the parse succeeds, for every possible downstream HTTP outcome,
including failures. -/
theorem c9_handler_status (o : HttpOutcome) (t1 t2 : Int) (b : Option JVal) :
    (getReqline b = none →
      handler o t1 t2 b = ⟨400, errObj "Invalid reqline input"⟩) ∧
    (∀ s m, getReqline b = some s → parseReqline s = .error m →
      handler o t1 t2 b = ⟨400, errObj m⟩) ∧
    (∀ s d, getReqline b = some s → parseReqline s = .ok d →
      (handler o t1 t2 b).status = 200) := by
  refine ⟨?_, ?_, ?_⟩
  · intro hn
    unfold handler
    rw [hn]
  · intro s m hs hm
    have hne : (if m = "" then
        "Some error occured. Please check your reqline statement" else m) = m :=
      if_neg (parseReqline_error_ne s m hm)
    calc handler o t1 t2 b
        = ⟨400, errObj (if m = "" then
            "Some error occured. Please check your reqline statement" else m)⟩ := by
          unfold handler
          rw [hs]
          simp only []
          rw [hm]
      _ = ⟨400, errObj m⟩ := by rw [hne]
  · intro s d hs hd
    unfold handler
    rw [hs]
    simp only []
    rw [hd]

/-- C9 witness: a parseable statement still yields status 200 when the
downstream HTTP call throws. -/
theorem c9_witness :
    (handler (.failure none none "network down") 0 5
      (some (.obj [("reqline".data, .str "HTTP GET | URL x".data)]))).status
      = 200 :=
  (c9_handler_status (.failure none none "network down") 0 5
      (some (.obj [("reqline".data, .str "HTTP GET | URL x".data)]))).2.2
    "HTTP GET | URL x".data
    { method := "GET".data, url := "x".data, headers := .obj [],
      query := .obj [], body := .obj [], full_url := "x".data }
    rfl rfl

/-- C10: a request body without a string `reqline` field is answered with
400 `Invalid reqline input`, and the response does not depend on the
downstream HTTP client at all. -/
theorem c10_invalid_reqline (o o2 : HttpOutcome) (t1 t2 : Int)
    (b : Option JVal) (h : getReqline b = none) :
    handler o t1 t2 b = ⟨400, errObj "Invalid reqline input"⟩ ∧
    handler o t1 t2 b = handler o2 t1 t2 b := by
  have h1 : handler o t1 t2 b = ⟨400, errObj "Invalid reqline input"⟩ := by
    unfold handler
    rw [h]
  have h2 : handler o2 t1 t2 b = ⟨400, errObj "Invalid reqline input"⟩ := by
    unfold handler
    rw [h]
  exact ⟨h1, h1.trans h2.symm⟩

/-- C10 witness: the theorem applied at a body that lacks the reqline
field, under two different downstream outcomes. -/
theorem c10_witness :
    handler (.success 200 .null) 0 1 (some (.obj [])) =
      ⟨400, errObj "Invalid reqline input"⟩ ∧
    handler (.success 200 .null) 0 1 (some (.obj [])) =
      handler (.failure none none "x") 0 1 (some (.obj [])) :=
  c10_invalid_reqline (.success 200 .null) (.failure none none "x") 0 1
    (some (.obj [])) rfl
